import Mathlib

/-!
Shallow embedding of the contributor aggregation and classification engine of
the veracode-dev-count repository (the `EvaluationService` in
`src/plugins/azure-devops.ts`, lines 374-739), together with the regex
normalization performed by `EvaluationService.setConfig` and the summary fold
of `EvaluationService.evaluateContributors`.

Conventions of the embedding:
* JS strings that may be `undefined` are modelled as `Option String`;
  JS truthiness of such a value (`undefined` and `""` are falsy) is `truthy`.
* The `Map<string, Contributor>` objects are modelled as insertion-ordered
  association lists with unique keys.
* A compiled case-insensitive `RegExp` is modelled as its test function
  `String → Bool`; the compiler `compilePatternI` covers the fragment of
  JS regex syntax actually exercised here (literal characters, `\`-escapes,
  and a final `$` anchor); any other metacharacter is treated as
  failing to compile.
* Thrown JS exceptions are modelled with `Except String`.
-/

namespace DevCount

/-- JS `String.prototype.toLowerCase` (ASCII range, which is all the code
relies on), used for `email.toLowerCase()` and `ciSystem.toLowerCase()`. -/
def strToLower (s : String) : String := ⟨s.data.map Char.toLower⟩

/-- JS truthiness of a possibly-`undefined` string: `undefined` and the empty
string are falsy, every other string is truthy. -/
def truthy : Option String → Bool
  | none => false
  | some s => decide (s ≠ "")

/-! ## Regex model (`setConfig` lines 403-424, `isExcludedEmail` lines 446-451) -/

/-- `[a-z]` character test used by the delimiter-stripping regex. -/
def isLowerAlpha (c : Char) : Bool := decide ('a' ≤ c) && decide (c ≤ 'z')

/-- First alternative of `pattern.replace(/^\/|\/[a-z]*$/g, '')`:
remove one leading `/` if present. -/
def stripLeadingSlash (s : String) : String :=
  match s.data with
  | '/' :: rest => ⟨rest⟩
  | _ => s

/-- Second alternative of `pattern.replace(/^\/|\/[a-z]*$/g, '')`:
remove the last `/` and everything after it when everything after it is
lowercase letters (the `/i`-style flags suffix). -/
def stripTrailingSlashFlags (s : String) : String :=
  let r := s.data.reverse
  let flags := r.takeWhile isLowerAlpha
  match r.drop flags.length with
  | '/' :: before => ⟨before.reverse⟩
  | _ => s

/-- `pattern.replace(/^\/|\/[a-z]*$/g, '')` from `setConfig` /
`loadRegexFromFile`: strip surrounding `/.../flags` delimiters. -/
def stripDelims (p : String) : String :=
  stripTrailingSlashFlags (stripLeadingSlash p)

/-- Parse the fragment of JS regex syntax used by this development: a sequence
of literal characters (with `\c` escapes standing for the literal `c`),
optionally ending in a `$` anchor.  Returns the literal characters and whether
the pattern is end-anchored; any other metacharacter makes the parse fail,
modelling an unsupported (for this embedding) or invalid pattern. -/
def parseSimple : List Char → Option (List Char × Bool)
  | [] => some ([], false)
  | ['$'] => some ([], true)
  | '\\' :: c :: rest => (parseSimple rest).map (fun la => (c :: la.1, la.2))
  | c :: rest =>
    if c ∈ ['$', '\\', '.', '*', '+', '?', '(', ')', '[', ']', '|', '^', '\x7b', '\x7d'] then
      none
    else
      (parseSimple rest).map (fun la => (c :: la.1, la.2))

/-- Contiguous-sublist test: does `needle` occur inside `hay`? -/
def listContains (needle : List Char) : List Char → Bool
  | [] => decide (needle = [])
  | c :: rest => needle.isPrefixOf (c :: rest) || listContains needle rest

/-- `new RegExp(pattern, 'i')` followed by `.test`: compile a pattern to its
case-insensitive test function.  An end-anchored pattern tests for a suffix,
an unanchored one for a substring, both after lowercasing (the `i` flag).
`none` models the `catch` branch of `setConfig` (pattern dropped). -/
def compilePatternI (p : String) : Option (String → Bool) :=
  (parseSimple p.data).map (fun la s =>
    if la.2 then (la.1.map Char.toLower).isSuffixOf (s.data.map Char.toLower)
    else listContains (la.1.map Char.toLower) (s.data.map Char.toLower))

/-- The `regexPatterns : Map<string, RegExp[]>` field of `EvaluationService`,
as an association list from a lowercased platform tag to the compiled
case-insensitive matchers. -/
abbrev RegexMap := List (String × List (String → Bool))

/-- JS `Map.prototype.get`: first entry with the given key, if any. -/
def alookup {α : Type} : List (String × α) → String → Option α
  | [], _ => none
  | (k, v) :: rest, key => if k = key then some v else alookup rest key

/-- JS `Map.prototype.set`: replace the value of an existing key in place,
or append a new entry at the end. -/
def amapSet {α : Type} (m : List (String × α)) (key : String) (v : α) :
    List (String × α) :=
  match m with
  | [] => [(key, v)]
  | (k, v0) :: rest =>
    if k = key then (k, v) :: rest else (k, v0) :: amapSet rest key v

/-- `this.regexPatterns.get(ciSystem)!.push(regex)` on a key known to be
present (set earlier in `setConfig`); on an absent key JS would throw, the
model leaves the map unchanged (never exercised). -/
def amapPush (m : RegexMap) (key : String) (r : String → Bool) : RegexMap :=
  match alookup m key with
  | none => m
  | some rs => amapSet m key (rs ++ [r])

/-- `EvaluationService.loadRegexFromFile` (lines 426-444), given the file
content: split on newlines, keep lines with nonempty trim, strip delimiters,
compile case-insensitive, drop patterns that fail to compile. -/
def loadRegexFromFile (m : RegexMap) (ciSystem : String) (content : String) :
    RegexMap :=
  let patterns := (content.splitOn "\n").filter (fun line => decide (line.trim ≠ ""))
  patterns.foldl (fun acc p =>
    match compilePatternI (stripDelims p) with
    | none => acc
    | some r => amapPush acc ciSystem r) m

/-- `EvaluationService.setConfig` (lines 403-424): reset the platform's
pattern list to `[]`, then add the compiled single pattern (if any and if it
compiles), then the patterns of the regex file (if any), keyed by the
lowercased `ciSystem` of the config. -/
def setConfig (m : RegexMap) (cfgCiSystem : String) (regexPattern : Option String)
    (regexFileContent : Option String) : RegexMap :=
  let ciSystem := strToLower cfgCiSystem
  let base := amapSet m ciSystem []
  let withPattern :=
    match regexPattern with
    | none => base
    | some p =>
      match compilePatternI (stripDelims p) with
      | none => base
      | some r => amapPush base ciSystem r
  match regexFileContent with
  | none => withPattern
  | some content => loadRegexFromFile withPattern ciSystem content

/-- `EvaluationService.isExcludedEmail` (lines 446-451): an empty email is
never excluded; with no pattern list registered for the platform nothing is
excluded; otherwise excluded iff some compiled pattern matches. -/
def isExcludedEmail (regexPatterns : RegexMap) (email ciSystem : String) : Bool :=
  if email = "" then false
  else
    match alookup regexPatterns (strToLower ciSystem) with
    | none => false
    | some patterns => patterns.any (fun regex => regex email)

/-! ## Contributor aggregation (`extractContributors`, lines 464-533) -/

/-- The `Contributor` record of the evaluation service:
`{ name: string; email: string; commits: number }`. -/
structure Contributor where
  name : String
  email : String
  commits : Nat
deriving DecidableEq, Repr

/-- A `Map<string, Contributor>` as an insertion-ordered association list. -/
abbrev CMap := List (String × Contributor)

/-- The statement
`const contributor = { name, email, commits: 0 };`
`if (!map.has(key)) map.set(key, contributor);`
`map.get(key)!.commits++;`
as one step: a new key is appended with count 1, an existing key keeps its
stored name/email (those of its first occurrence) and its count increases. -/
def mapBump : CMap → String → String → String → CMap
  | [], key, name, email => [(key, ⟨name, email, 1⟩)]
  | (k, c0) :: rest, key, name, email =>
    if k = key then (k, { c0 with commits := c0.commits + 1 }) :: rest
    else (k, c0) :: mapBump rest key name email

/-- The commit count stored under a key, `0` when the key is absent. -/
def lookupCommits (m : CMap) (key : String) : Nat :=
  match alookup m key with
  | none => 0
  | some c => c.commits

/-- Whether a bucket contains an entry for the given key. -/
def hasKey (m : CMap) (key : String) : Bool :=
  (alookup m key).isSome

/-- An author object with possibly-missing `name` / `email` fields. -/
structure Author where
  name : Option String
  email : Option String
deriving DecidableEq, Repr

/-- A raw commit record as consumed by `extractContributors` (`commits: any[]`).
`commit` stands for the GitHub primary path `commit.commit.author` (present
iff `commit.commit && commit.commit.author` holds), `author` for the GitHub
fallback and the Azure DevOps path, `author_name`/`author_email` for the
GitLab flat fields. -/
structure CommitRecord where
  commit : Option Author
  author : Option Author
  author_name : Option String
  author_email : Option String
deriving DecidableEq, Repr

/-- The `switch (ciSystem.toLowerCase())` of `extractContributors`
(lines 472-495), producing the raw `(name, email)` pair:
* `github`: primary path, else fallback path, else warn-and-skip;
* `gitlab`: the flat fields (possibly `undefined`, never throwing);
* `azuredevops`: `commit.author.name` — reading a missing `author` object
  throws a `TypeError`, modelled as `.error`;
* any other tag: `return` (record skipped). -/
def extractIdentity (ciSystem : String) (c : CommitRecord) :
    Except String (Option (Option String × Option String)) :=
  match strToLower ciSystem with
  | "github" =>
    match c.commit with
    | some a => .ok (some (a.name, a.email))
    | none =>
      match c.author with
      | some a => .ok (some (a.name, a.email))
      | none => .ok none
  | "gitlab" => .ok (some (c.author_name, c.author_email))
  | "azuredevops" =>
    match c.author with
    | some a => .ok (some (a.name, a.email))
    | none => .error "TypeError: Cannot read properties of undefined (reading 'name')"
  | _ => .ok none

/-- Where one record is routed: dropped, tallied in the removed bucket, or
tallied in the contributors (included) bucket, with the key and the
name/email stored on first insertion. -/
inductive Route where
  | skipped : Route
  | toRemoved (key name email : String) : Route
  | toIncluded (key name email : String) : Route
deriving DecidableEq, Repr

/-- The body of the `commits.forEach` of `extractContributors`
(lines 468-527) up to the bucket update: extract the identity, apply the
falsy checks `if (!name || !email)` / `if (name && !email)` (name-only goes
to the removed bucket under `name + ":"`), otherwise lowercase the email,
build the key `name + ":" + normalizedEmail`, and classify with
`isExcludedEmail`. -/
def routeOf (rp : RegexMap) (ciSystem : String) (c : CommitRecord) :
    Except String Route :=
  match extractIdentity ciSystem c with
  | .error e => .error e
  | .ok none => .ok .skipped
  | .ok (some (nameO, emailO)) =>
    if !(truthy nameO) || !(truthy emailO) then
      if truthy nameO && !(truthy emailO) then
        let name := nameO.getD ""
        .ok (.toRemoved (name ++ ":") name "")
      else
        .ok .skipped
    else
      let name := nameO.getD ""
      let email := emailO.getD ""
      let normalizedEmail := strToLower email
      let key := name ++ ":" ++ normalizedEmail
      if isExcludedEmail rp normalizedEmail ciSystem then
        .ok (.toRemoved key name normalizedEmail)
      else
        .ok (.toIncluded key name normalizedEmail)

/-- The two buckets built by `extractContributors`: `contributorMap` and
`removedContributorMap`. -/
structure Buckets where
  contributors : CMap
  removedContributors : CMap
deriving DecidableEq, Repr

/-- One iteration of the `forEach`: route the record and update the matching
bucket (or propagate a thrown exception). -/
def processCommit (rp : RegexMap) (ciSystem : String) (b : Buckets)
    (c : CommitRecord) : Except String Buckets :=
  match routeOf rp ciSystem c with
  | .error e => .error e
  | .ok .skipped => .ok b
  | .ok (.toRemoved key name email) =>
    .ok { b with removedContributors := mapBump b.removedContributors key name email }
  | .ok (.toIncluded key name email) =>
    .ok { b with contributors := mapBump b.contributors key name email }

/-- The `forEach` loop over all commits, threading the two maps; an exception
thrown by any iteration aborts the whole call. -/
def extractGo (rp : RegexMap) (ciSystem : String) :
    Buckets → List CommitRecord → Except String Buckets
  | b, [] => .ok b
  | b, c :: cs =>
    match processCommit rp ciSystem b c with
    | .error e => .error e
    | .ok b2 => extractGo rp ciSystem b2 cs

/-- `EvaluationService.extractContributors` (lines 464-533): fold all commits
into the two buckets, starting from empty maps. -/
def extractContributors (rp : RegexMap) (commits : List CommitRecord)
    (ciSystem : String) : Except String Buckets :=
  extractGo rp ciSystem ⟨[], []⟩ commits

/-! ## Summary fold (`evaluateContributors`, lines 638-706) -/

/-- Per-platform repository counters of the summary. -/
structure RepoCounts where
  gitlab : Nat
  github : Nat
  azureDevOps : Nat
deriving DecidableEq, Repr

/-- The `SCMSummary` structure (lines 355-372). -/
structure SCMSummary where
  dateOfReport : String
  timeOfReport : String
  gitlabContributors : Nat
  githubContributors : Nat
  azureDevOpsContributors : Nat
  totalUniqueContributors : Nat
  selectedRepos : RepoCounts
  totalRepos : RepoCounts
deriving DecidableEq, Repr

/-- The summary built by the `EvaluationService` constructor (lines 380-401):
all counters zero. -/
def initialSummary (dateOfReport timeOfReport : String) : SCMSummary :=
  { dateOfReport := dateOfReport
    timeOfReport := timeOfReport
    gitlabContributors := 0
    githubContributors := 0
    azureDevOpsContributors := 0
    totalUniqueContributors := 0
    selectedRepos := ⟨0, 0, 0⟩
    totalRepos := ⟨0, 0, 0⟩ }

/-- Lines 676-700 of `evaluateContributors`: the `switch (normalizedSystem)`
that overwrites the platform's contributor counter and both repository
counters with the just-computed values, followed by the recomputation of
`totalUniqueContributors` as the arithmetic sum of the three platform
counters. -/
def updateSummary (s : SCMSummary) (ciSystem : String)
    (contributorsLen reposLen : Nat) : SCMSummary :=
  let s2 :=
    match strToLower ciSystem with
    | "gitlab" =>
      { s with gitlabContributors := contributorsLen
               selectedRepos := { s.selectedRepos with gitlab := reposLen }
               totalRepos := { s.totalRepos with gitlab := reposLen } }
    | "github" =>
      { s with githubContributors := contributorsLen
               selectedRepos := { s.selectedRepos with github := reposLen }
               totalRepos := { s.totalRepos with github := reposLen } }
    | "azuredevops" =>
      { s with azureDevOpsContributors := contributorsLen
               selectedRepos := { s.selectedRepos with azureDevOps := reposLen }
               totalRepos := { s.totalRepos with azureDevOps := reposLen } }
    | _ => s
  { s2 with totalUniqueContributors :=
      s2.gitlabContributors + s2.githubContributors + s2.azureDevOpsContributors }

/-- The `.some(c => name:email key equality)`-guarded `push` that merges one
repository's contributor list into the system-wide list (lines 660-673):
append each contributor whose `name:email` key is not yet present. -/
def dedupAdd (acc : List Contributor) (cs : List Contributor) : List Contributor :=
  cs.foldl (fun acc2 c =>
    if acc2.any (fun c2 => decide (c2.name ++ ":" ++ c2.email = c.name ++ ":" ++ c.email))
    then acc2
    else acc2 ++ [c]) acc

/-- The `for (const repo of repos)` loop of `evaluateContributors`
(lines 649-674): each element of the input list is the commit list read from
storage for one repository; per repository the buckets are computed and their
values merged into the system-wide deduplicated lists. -/
def evalRepos (rp : RegexMap) (ciSystem : String) :
    List Buckets × List Contributor × List Contributor → List (List CommitRecord) →
    Except String (List Buckets × List Contributor × List Contributor)
  | acc, [] => .ok acc
  | (rbs, sysCs, sysRem), commits :: rest =>
    match extractContributors rp commits ciSystem with
    | .error e => .error e
    | .ok b =>
      evalRepos rp ciSystem
        (rbs ++ [b],
         dedupAdd sysCs (b.contributors.map Prod.snd),
         dedupAdd sysRem (b.removedContributors.map Prod.snd))
        rest

/-- `EvaluationService.evaluateContributors` (lines 638-706), with the
storage reads replaced by the per-repository commit lists passed in: produce
the per-repository buckets, the system-wide deduplicated contributor and
removed lists, and the updated summary (platform counters overwritten, both
repository counters set to the length of the repository list, total
recomputed as a sum). -/
def evaluateContributors (rp : RegexMap) (s : SCMSummary)
    (repoCommits : List (List CommitRecord)) (ciSystem : String) :
    Except String (List Buckets × (List Contributor × List Contributor) × SCMSummary) :=
  match evalRepos rp ciSystem ([], [], []) repoCommits with
  | .error e => .error e
  | .ok (rbs, sysCs, sysRem) =>
    .ok (rbs, (sysCs, sysRem),
         updateSummary s ciSystem sysCs.length repoCommits.length)

/-! ## Observation helpers used to state the properties -/

/-- Whether `routeOf` sends a record to the included bucket under key `K`. -/
def routesToIncludedKey (rp : RegexMap) (ciSystem K : String) (c : CommitRecord) : Bool :=
  match routeOf rp ciSystem c with
  | .ok (.toIncluded key _ _) => decide (key = K)
  | _ => false

/-- Whether `routeOf` sends a record to the removed bucket under key `K`. -/
def routesToRemovedKey (rp : RegexMap) (ciSystem K : String) (c : CommitRecord) : Bool :=
  match routeOf rp ciSystem c with
  | .ok (.toRemoved key _ _) => decide (key = K)
  | _ => false

/-- How many records of the input route to the included bucket under `K`. -/
def countIncluded (rp : RegexMap) (ciSystem K : String)
    (commits : List CommitRecord) : Nat :=
  commits.countP (routesToIncludedKey rp ciSystem K)

/-- How many records of the input route to the removed bucket under `K`. -/
def countRemoved (rp : RegexMap) (ciSystem K : String)
    (commits : List CommitRecord) : Nat :=
  commits.countP (routesToRemovedKey rp ciSystem K)

/-- The summary an `evaluateContributors` run leaves behind (unchanged when
the run throws). -/
def summaryOfRun (rp : RegexMap) (s : SCMSummary)
    (repoCommits : List (List CommitRecord)) (ciSystem : String) : SCMSummary :=
  match evaluateContributors rp s repoCommits ciSystem with
  | .ok out => out.2.2
  | .error _ => s

/-! ## Concrete inputs for the scenario and counterexample theorems -/

/-- An Azure DevOps-shaped record: fields under `commit.author`. -/
def adoRecord (name email : Option String) : CommitRecord :=
  ⟨none, some ⟨name, email⟩, none, none⟩

/-- A GitLab-shaped record: flat `author_name` / `author_email` fields. -/
def glRecord (name email : Option String) : CommitRecord :=
  ⟨none, none, name, email⟩

/-- A GitHub-shaped record: fields under `commit.commit.author`. -/
def ghRecord (name email : Option String) : CommitRecord :=
  ⟨some ⟨name, email⟩, none, none, none⟩

/-- A record with none of the platform author shapes present. -/
def emptyRecord : CommitRecord := ⟨none, none, none, none⟩

/-- Rule set from the delimited pattern string of Scenario A. -/
def rpGmailDelim : RegexMap := setConfig [] "azuredevops" (some "/gmail\\.com$/i") none

/-- Rule set from the equivalent bare pattern string. -/
def rpGmailBare : RegexMap := setConfig [] "azuredevops" (some "gmail\\.com$") none

/-- Scenario A records: Alice at gmail three times, Bob twice. -/
def scenarioARecords : List CommitRecord :=
  [adoRecord (some "Alice") (some "alice@gmail.com"),
   adoRecord (some "Alice") (some "alice@gmail.com"),
   adoRecord (some "Alice") (some "alice@gmail.com"),
   adoRecord (some "Bob") (some "bob@co.com"),
   adoRecord (some "Bob") (some "bob@co.com")]

/-- Rule set whose single pattern is the literal `x`. -/
def rpLiteralX : RegexMap := setConfig [] "gitlab" (some "x") none

/-- Two records with different (name, email) splits of the same string key
`"A:x:y"`, classified into different buckets by the literal-`x` rule. -/
def keyCollisionRecords : List CommitRecord :=
  [glRecord (some "A:x") (some "y"), glRecord (some "A") (some "x:y")]

/-- Rule set whose single pattern is the literal `u`. -/
def rpLiteralU : RegexMap := setConfig [] "gitlab" (some "u") none

/-- Two records with different (name, email) splits of the same string key
`"B:u:v"`, classified into different buckets by the literal-`u` rule. -/
def keyCollisionRecords2 : List CommitRecord :=
  [glRecord (some "B:u") (some "v"), glRecord (some "B") (some "u:v")]

/-- Five distinct GitLab contributors, one commit each. -/
def glFiveRecords : List CommitRecord :=
  [glRecord (some "P1") (some "p1@x.com"), glRecord (some "P2") (some "p2@x.com"),
   glRecord (some "P3") (some "p3@x.com"), glRecord (some "P4") (some "p4@x.com"),
   glRecord (some "P5") (some "p5@x.com")]

/-- Three GitHub contributors whose identities also occur on GitLab. -/
def ghThreeRecords : List CommitRecord :=
  [ghRecord (some "P1") (some "p1@x.com"), ghRecord (some "P2") (some "p2@x.com"),
   ghRecord (some "P3") (some "p3@x.com")]

/-- Fresh summary at the start of a run. -/
def startSummary : SCMSummary := initialSummary "d" "t"

/-- Summary after evaluating the GitLab platform (one repository, five
included contributors). -/
def summaryAfterGitlab : SCMSummary :=
  summaryOfRun [] startSummary [glFiveRecords] "gitlab"

/-- Summary after then evaluating the GitHub platform (one repository, three
included contributors, all of them also present on GitLab). -/
def summaryAfterBoth : SCMSummary :=
  summaryOfRun [] summaryAfterGitlab [ghThreeRecords] "github"

/-! ## Helper lemmas -/

theorem lookupCommits_mapBump (m : CMap) (key name email K : String) :
    lookupCommits (mapBump m key name email) K =
      lookupCommits m K + (if key = K then 1 else 0) := by
  induction m with
  | nil =>
    by_cases h : key = K <;> simp [mapBump, lookupCommits, alookup, h]
  | cons kv rest ih =>
    obtain ⟨k, c0⟩ := kv
    by_cases hk : k = key
    · subst hk
      by_cases hK : k = K <;> simp [mapBump, lookupCommits, alookup, hK]
    · by_cases hK : k = K
      · subst hK
        have hne : k ≠ key := hk
        have hne2 : key ≠ k := fun h => hk h.symm
        simp [mapBump, hne, lookupCommits, alookup, hne2]
      · simpa [mapBump, hk, lookupCommits, alookup, hK] using ih

theorem hasKey_mapBump (m : CMap) (key name email K : String) :
    hasKey (mapBump m key name email) K = (hasKey m K || decide (key = K)) := by
  induction m with
  | nil =>
    by_cases h : key = K <;> simp [mapBump, hasKey, alookup, h]
  | cons kv rest ih =>
    obtain ⟨k, c0⟩ := kv
    by_cases hk : k = key
    · subst hk
      by_cases hK : k = K <;> simp [mapBump, hasKey, alookup, hK]
    · by_cases hK : k = K
      · subst hK
        simp [mapBump, hk, hasKey, alookup]
      · simpa [mapBump, hk, hasKey, alookup, hK] using ih

theorem any_eq_decide_countP {α : Type} (p : α → Bool) (l : List α) :
    l.any p = decide (0 < l.countP p) := by
  induction l with
  | nil => rfl
  | cons a l ih =>
    by_cases h : p a <;>
      simp [List.countP_cons, h, ih, List.any_cons]

/-- The four accounting equations maintained by the `forEach` loop: for every
key, the stored commit count of each bucket grows by the number of processed
records routed to that key and bucket, and a key is present iff it was
present before or some processed record routes to it. -/
theorem extractGo_spec (rp : RegexMap) (sys K : String) :
    ∀ (commits : List CommitRecord) (b0 b : Buckets),
      extractGo rp sys b0 commits = .ok b →
        lookupCommits b.contributors K =
            lookupCommits b0.contributors K + countIncluded rp sys K commits
      ∧ lookupCommits b.removedContributors K =
            lookupCommits b0.removedContributors K + countRemoved rp sys K commits
      ∧ hasKey b.contributors K =
            (hasKey b0.contributors K || commits.any (routesToIncludedKey rp sys K))
      ∧ hasKey b.removedContributors K =
            (hasKey b0.removedContributors K || commits.any (routesToRemovedKey rp sys K)) := by
  intro commits
  induction commits with
  | nil =>
    intro b0 b h
    simp only [extractGo] at h
    injection h with h
    subst h
    simp [countIncluded, countRemoved]
  | cons c cs ih =>
    intro b0 b h
    simp only [extractGo] at h
    cases hpc : processCommit rp sys b0 c with
    | error e => rw [hpc] at h; simp at h
    | ok b1 =>
      rw [hpc] at h
      simp only [] at h
      obtain ⟨h1, h2, h3, h4⟩ := ih b1 b h
      unfold processCommit at hpc
      cases hr : routeOf rp sys c with
      | error e => rw [hr] at hpc; simp at hpc
      | ok r =>
        rw [hr] at hpc
        cases r with
        | skipped =>
          injection hpc with hb
          subst hb
          have pI : routesToIncludedKey rp sys K c = false := by
            simp [routesToIncludedKey, hr]
          have pR : routesToRemovedKey rp sys K c = false := by
            simp [routesToRemovedKey, hr]
          simp [countIncluded, countRemoved, List.countP_cons, List.any_cons,
            pI, pR] at h1 h2 h3 h4 ⊢
          exact ⟨h1, h2, h3, h4⟩
        | toRemoved key name email =>
          injection hpc with hb
          subst hb
          have pI : routesToIncludedKey rp sys K c = false := by
            simp [routesToIncludedKey, hr]
          have pR : routesToRemovedKey rp sys K c = decide (key = K) := by
            simp [routesToRemovedKey, hr]
          simp only [countIncluded, countRemoved, List.countP_cons, List.any_cons,
            pI, pR] at h1 h2 h3 h4 ⊢
          simp only [lookupCommits_mapBump, hasKey_mapBump] at h1 h2 h3 h4
          refine ⟨by simpa using h1, ?_, by simpa using h3, ?_⟩
          · rw [h2]
            by_cases hK : key = K
            all_goals simp [hK]
            all_goals try omega
          · rw [h4]
            by_cases hK : key = K <;> simp [hK, Bool.or_assoc, Bool.or_comm]
        | toIncluded key name email =>
          injection hpc with hb
          subst hb
          have pI : routesToIncludedKey rp sys K c = decide (key = K) := by
            simp [routesToIncludedKey, hr]
          have pR : routesToRemovedKey rp sys K c = false := by
            simp [routesToRemovedKey, hr]
          simp only [countIncluded, countRemoved, List.countP_cons, List.any_cons,
            pI, pR] at h1 h2 h3 h4 ⊢
          simp only [lookupCommits_mapBump, hasKey_mapBump] at h1 h2 h3 h4
          refine ⟨?_, by simpa using h2, ?_, by simpa using h4⟩
          · rw [h1]
            by_cases hK : key = K
            all_goals simp [hK]
            all_goals try omega
          · rw [h3]
            by_cases hK : key = K <;> simp [hK, Bool.or_assoc, Bool.or_comm]

/-- `extractContributors` accounting, from the empty starting buckets. -/
theorem extractContributors_spec (rp : RegexMap) (sys K : String)
    (commits : List CommitRecord) (b : Buckets)
    (h : extractContributors rp commits sys = .ok b) :
      lookupCommits b.contributors K = countIncluded rp sys K commits
    ∧ lookupCommits b.removedContributors K = countRemoved rp sys K commits
    ∧ hasKey b.contributors K = commits.any (routesToIncludedKey rp sys K)
    ∧ hasKey b.removedContributors K = commits.any (routesToRemovedKey rp sys K) := by
  have hs := extractGo_spec rp sys K commits ⟨[], []⟩ b h
  simpa [lookupCommits, hasKey, alookup] using hs

/-! ## Claim theorems -/

/-- C3: the claim says aggregation never throws for any recognized platform
tag, with malformed records silently skipped.  The code contradicts this for
`azuredevops`: a record with no `author` object makes
`extractContributors` read `commit.author.name` of `undefined` and throw,
while the same record is skipped without error under the `github` and
`gitlab` tags. -/
theorem azuredevops_missing_author_throws :
    extractContributors [] [emptyRecord] "azuredevops" =
      .error "TypeError: Cannot read properties of undefined (reading 'name')"
  ∧ extractContributors [] [emptyRecord] "github" = .ok ⟨[], []⟩
  ∧ extractContributors [] [emptyRecord] "gitlab" = .ok ⟨[], []⟩ :=
  ⟨rfl, rfl, rfl⟩

/-- C4: a record whose extracted name is truthy and whose extracted email is
absent or empty is routed to the removed bucket under key `name ++ ":"`,
for every rule set (the rule set is never consulted), and repeats increment
the count: Scenario B yields removed = Carol with 2 commits and included
empty, for every rule set. -/
theorem name_only_routing :
    (∀ rp : RegexMap,
      extractContributors rp
        [adoRecord (some "Carol") (some ""), adoRecord (some "Carol") (some "")]
        "azuredevops" =
        .ok ⟨[], [("Carol:", ⟨"Carol", "", 2⟩)]⟩)
  ∧ (∀ (rp : RegexMap) (sys : String) (c : CommitRecord) (n : String)
        (eo : Option String),
      extractIdentity sys c = .ok (some (some n, eo)) →
      n ≠ "" →
      eo = none ∨ eo = some "" →
      routeOf rp sys c = .ok (.toRemoved (n ++ ":") n "")) := by
  constructor
  · intro rp; rfl
  · intro rp sys c n eo hid hn heo
    unfold routeOf
    rw [hid]
    rcases heo with h | h <;> subst h <;> simp [truthy, hn]

theorem name_only_routing_witness :
    routeOf [] "gitlab" (glRecord (some "N") none) = .ok (.toRemoved "N:" "N" "") :=
  name_only_routing.2 [] "gitlab" (glRecord (some "N") none) "N" none rfl
    (by decide) (Or.inl rfl)

/-- C5: the delimited pattern string `"/gmail\.com$/i"` and the bare pattern
string `"gmail\.com$"` normalize to the same pattern and compile to the same
rule set, so classification agrees on every email; under either,
`"user@gmail.com"` is excluded, and matching is case-insensitive even though
the bare pattern carries no flag, so `"USER@GMAIL.COM"` is excluded too. -/
theorem regex_normalization :
    stripDelims "/gmail\\.com$/i" = "gmail\\.com$"
  ∧ stripDelims "gmail\\.com$" = "gmail\\.com$"
  ∧ rpGmailDelim = rpGmailBare
  ∧ (∀ email : String,
      isExcludedEmail rpGmailDelim email "azuredevops" =
        isExcludedEmail rpGmailBare email "azuredevops")
  ∧ isExcludedEmail rpGmailDelim "user@gmail.com" "azuredevops" = true
  ∧ isExcludedEmail rpGmailBare "user@gmail.com" "azuredevops" = true
  ∧ isExcludedEmail rpGmailDelim "USER@GMAIL.COM" "azuredevops" = true
  ∧ isExcludedEmail rpGmailBare "USER@GMAIL.COM" "azuredevops" = true := by
  have hrp : rpGmailDelim = rpGmailBare := rfl
  exact ⟨rfl, rfl, hrp, fun email => by rw [hrp], rfl, rfl, rfl, rfl⟩

/-- C8: `isExcludedEmail` returns `false` on the empty email for every rule
set, and on every email when no pattern list is registered for the given
platform tag. -/
theorem empty_email_never_excluded :
    (∀ (rp : RegexMap) (sys : String), isExcludedEmail rp "" sys = false)
  ∧ (∀ (rp : RegexMap) (sys email : String),
      alookup rp (strToLower sys) = none → isExcludedEmail rp email sys = false) := by
  constructor
  · intro rp sys; rfl
  · intro rp sys email h
    unfold isExcludedEmail
    by_cases he : email = "" <;> simp [he, h]

theorem empty_email_never_excluded_witness :
    isExcludedEmail [] "user@x.com" "bitbucket" = false :=
  empty_email_never_excluded.2 [] "bitbucket" "user@x.com" rfl

/-- C2 counterexample: the claim says a present-name/absent-email record and
a present-name/empty-string-email record produce two distinct identity keys.
In the code both are falsy (`!email`), so both take the name-only branch:
they route identically to key `"Dana:"` and merge into one removed entry
whose count 2 covers both records. -/
theorem missing_vs_empty_email_cex :
    routeOf [] "azuredevops" (adoRecord (some "Dana") none) =
      routeOf [] "azuredevops" (adoRecord (some "Dana") (some ""))
  ∧ extractContributors []
      [adoRecord (some "Dana") none, adoRecord (some "Dana") (some "")]
      "azuredevops" =
      .ok ⟨[], [("Dana:", ⟨"Dana", "", 2⟩)]⟩
  ∧ (Buckets.removedContributors ⟨[], [("Dana:", ⟨"Dana", "", 2⟩)]⟩).length = 1 :=
  ⟨rfl, rfl, rfl⟩

/-- C2 amended: two records with the same nonempty name, one with the email
field absent and one with the email field present but empty, produce the
SAME identity key `name ++ ":"` and are both routed to the removed bucket
(rule set irrelevant), merging into a single entry whose count covers both. -/
theorem missing_vs_empty_email_merged
    (rp : RegexMap) (sys : String) (c1 c2 : CommitRecord) (n : String)
    (hn : n ≠ "")
    (h1 : extractIdentity sys c1 = .ok (some (some n, none)))
    (h2 : extractIdentity sys c2 = .ok (some (some n, some ""))) :
    routeOf rp sys c1 = .ok (.toRemoved (n ++ ":") n "")
  ∧ routeOf rp sys c2 = .ok (.toRemoved (n ++ ":") n "") := by
  constructor
  · unfold routeOf; rw [h1]; simp [truthy, hn]
  · unfold routeOf; rw [h2]; simp [truthy, hn]

theorem missing_vs_empty_email_merged_witness :
    routeOf [] "azuredevops" (adoRecord (some "Dana") none) =
      .ok (.toRemoved "Dana:" "Dana" "")
  ∧ routeOf [] "azuredevops" (adoRecord (some "Dana") (some "")) =
      .ok (.toRemoved "Dana:" "Dana" "") :=
  missing_vs_empty_email_merged [] "azuredevops" (adoRecord (some "Dana") none)
    (adoRecord (some "Dana") (some "")) "Dana" (by decide) rfl rfl

/-- C1 counterexample: the claim says an identity key occurring `k` times
appears in exactly one bucket with count exactly `k`.  Keys are plain string
concatenations, so two records with different (name, email) splits of the
same key `"A:x:y"` can classify differently: with the literal-`x` rule, the
key occurs twice yet ends up in BOTH buckets with count 1 each. -/
theorem count_additivity_cex :
    extractContributors rpLiteralX keyCollisionRecords "gitlab" =
      .ok ⟨[("A:x:y", ⟨"A:x", "y", 1⟩)], [("A:x:y", ⟨"A", "x:y", 1⟩)]⟩
  ∧ countIncluded rpLiteralX "gitlab" "A:x:y" keyCollisionRecords +
      countRemoved rpLiteralX "gitlab" "A:x:y" keyCollisionRecords = 2
  ∧ hasKey (Buckets.contributors
      ⟨[("A:x:y", ⟨"A:x", "y", 1⟩)], [("A:x:y", ⟨"A", "x:y", 1⟩)]⟩) "A:x:y" = true
  ∧ hasKey (Buckets.removedContributors
      ⟨[("A:x:y", ⟨"A:x", "y", 1⟩)], [("A:x:y", ⟨"A", "x:y", 1⟩)]⟩) "A:x:y" = true
  ∧ lookupCommits (Buckets.contributors
      ⟨[("A:x:y", ⟨"A:x", "y", 1⟩)], [("A:x:y", ⟨"A", "x:y", 1⟩)]⟩) "A:x:y" = 1
  ∧ lookupCommits (Buckets.removedContributors
      ⟨[("A:x:y", ⟨"A:x", "y", 1⟩)], [("A:x:y", ⟨"A", "x:y", 1⟩)]⟩) "A:x:y" = 1 :=
  ⟨rfl, rfl, rfl, rfl, rfl, rfl⟩

/-- C1 amended: Scenario A holds as stated; and in general, if an identity
key occurs `k >= 1` times in the input AND all of its occurrences route to
the same bucket (which holds automatically whenever the key determines the
(name, normalized-email) split, e.g. when names contain no colon), then the
key appears in exactly one bucket with commit count exactly `k`. -/
theorem count_additivity :
    extractContributors rpGmailDelim scenarioARecords "azuredevops" =
      .ok ⟨[("Bob:bob@co.com", ⟨"Bob", "bob@co.com", 2⟩)],
           [("Alice:alice@gmail.com", ⟨"Alice", "alice@gmail.com", 3⟩)]⟩
  ∧ (∀ (rp : RegexMap) (sys : String) (commits : List CommitRecord)
        (b : Buckets) (K : String) (k : Nat),
      extractContributors rp commits sys = .ok b →
      countIncluded rp sys K commits + countRemoved rp sys K commits = k →
      1 ≤ k →
      (countIncluded rp sys K commits = 0 ∨ countRemoved rp sys K commits = 0) →
        (hasKey b.contributors K = true ∧ hasKey b.removedContributors K = false
            ∧ lookupCommits b.contributors K = k)
      ∨ (hasKey b.removedContributors K = true ∧ hasKey b.contributors K = false
            ∧ lookupCommits b.removedContributors K = k)) := by
  constructor
  · rfl
  · intro rp sys commits b K k hok hsum hpos hsame
    obtain ⟨e1, e2, e3, e4⟩ := extractContributors_spec rp sys K commits b hok
    rw [e1, e2, e3, e4, any_eq_decide_countP, any_eq_decide_countP]
    unfold countIncluded countRemoved at hsum hsame ⊢
    rcases hsame with h0 | h0
    · right
      simp only [decide_eq_true_eq, decide_eq_false_iff_not]
      exact ⟨by omega, by omega, by omega⟩
    · left
      simp only [decide_eq_true_eq, decide_eq_false_iff_not]
      exact ⟨by omega, by omega, by omega⟩

theorem count_additivity_witness :
    (hasKey (Buckets.contributors ⟨[("N:e@f", ⟨"N", "e@f", 1⟩)], []⟩) "N:e@f" = true
      ∧ hasKey (Buckets.removedContributors ⟨[("N:e@f", ⟨"N", "e@f", 1⟩)], []⟩) "N:e@f" = false
      ∧ lookupCommits (Buckets.contributors ⟨[("N:e@f", ⟨"N", "e@f", 1⟩)], []⟩) "N:e@f" = 1)
  ∨ (hasKey (Buckets.removedContributors ⟨[("N:e@f", ⟨"N", "e@f", 1⟩)], []⟩) "N:e@f" = true
      ∧ hasKey (Buckets.contributors ⟨[("N:e@f", ⟨"N", "e@f", 1⟩)], []⟩) "N:e@f" = false
      ∧ lookupCommits (Buckets.removedContributors ⟨[("N:e@f", ⟨"N", "e@f", 1⟩)], []⟩) "N:e@f" = 1) :=
  count_additivity.2 [] "gitlab" [glRecord (some "N") (some "e@f")]
    ⟨[("N:e@f", ⟨"N", "e@f", 1⟩)], []⟩ "N:e@f" 1 rfl rfl (by decide) (Or.inr rfl)

/-- C7 counterexample: the claim says every identity with a non-empty email
appears in exactly one bucket.  With the literal-`u` rule, the key `"B:u:v"`
arises from the record (name `B`, non-empty email `u:v`) and also from
(name `B:u`, email `v`); the two classify differently, so the key is present
in BOTH buckets. -/
theorem mutual_exclusivity_cex :
    extractContributors rpLiteralU keyCollisionRecords2 "gitlab" =
      .ok ⟨[("B:u:v", ⟨"B:u", "v", 1⟩)], [("B:u:v", ⟨"B", "u:v", 1⟩)]⟩
  ∧ routeOf rpLiteralU "gitlab" (glRecord (some "B") (some "u:v")) =
      .ok (.toRemoved "B:u:v" "B" "u:v")
  ∧ hasKey (Buckets.contributors
      ⟨[("B:u:v", ⟨"B:u", "v", 1⟩)], [("B:u:v", ⟨"B", "u:v", 1⟩)]⟩) "B:u:v" = true
  ∧ hasKey (Buckets.removedContributors
      ⟨[("B:u:v", ⟨"B:u", "v", 1⟩)], [("B:u:v", ⟨"B", "u:v", 1⟩)]⟩) "B:u:v" = true :=
  ⟨rfl, rfl, rfl, rfl⟩

/-- C7 amended: an identity key occurring at least once, all of whose
occurrences route to the same bucket (automatic when the key determines the
(name, normalized-email) split), is present in exactly one of the two result
buckets: never both, never neither. -/
theorem mutual_exclusivity (rp : RegexMap) (sys : String)
    (commits : List CommitRecord) (b : Buckets) (K : String)
    (hok : extractContributors rp commits sys = .ok b)
    (hocc : 0 < countIncluded rp sys K commits + countRemoved rp sys K commits)
    (hsame : countIncluded rp sys K commits = 0 ∨ countRemoved rp sys K commits = 0) :
    hasKey b.contributors K ≠ hasKey b.removedContributors K := by
  obtain ⟨e1, e2, e3, e4⟩ := extractContributors_spec rp sys K commits b hok
  rw [e3, e4, any_eq_decide_countP, any_eq_decide_countP]
  simp only [countIncluded, countRemoved] at hocc hsame
  rcases hsame with h0 | h0
  · have hR : 0 < commits.countP (routesToRemovedKey rp sys K) := by omega
    simp [h0, hR]
  · have hI : 0 < commits.countP (routesToIncludedKey rp sys K) := by omega
    simp [h0, hI]

theorem mutual_exclusivity_witness :
    hasKey (Buckets.contributors ⟨[("M:m@z.com", ⟨"M", "m@z.com", 1⟩)], []⟩) "M:m@z.com" ≠
      hasKey (Buckets.removedContributors ⟨[("M:m@z.com", ⟨"M", "m@z.com", 1⟩)], []⟩) "M:m@z.com" :=
  mutual_exclusivity [] "azuredevops" [adoRecord (some "M") (some "m@z.com")]
    ⟨[("M:m@z.com", ⟨"M", "m@z.com", 1⟩)], []⟩ "M:m@z.com" rfl (by decide) (Or.inr rfl)

/-- C9: aggregating a permutation of the input yields the same included and
removed identity key sets with the same per-key commit counts. -/
theorem order_invariance (rp : RegexMap) (sys : String)
    (l1 l2 : List CommitRecord) (b1 b2 : Buckets) (K : String)
    (hperm : l1.Perm l2)
    (h1 : extractContributors rp l1 sys = .ok b1)
    (h2 : extractContributors rp l2 sys = .ok b2) :
      hasKey b1.contributors K = hasKey b2.contributors K
    ∧ lookupCommits b1.contributors K = lookupCommits b2.contributors K
    ∧ hasKey b1.removedContributors K = hasKey b2.removedContributors K
    ∧ lookupCommits b1.removedContributors K = lookupCommits b2.removedContributors K := by
  obtain ⟨a1, a2, a3, a4⟩ := extractContributors_spec rp sys K l1 b1 h1
  obtain ⟨c1, c2, c3, c4⟩ := extractContributors_spec rp sys K l2 b2 h2
  have hci : countIncluded rp sys K l1 = countIncluded rp sys K l2 :=
    hperm.countP_eq _
  have hcr : countRemoved rp sys K l1 = countRemoved rp sys K l2 :=
    hperm.countP_eq _
  refine ⟨?_, ?_, ?_, ?_⟩
  · rw [a3, c3, any_eq_decide_countP, any_eq_decide_countP]
    unfold countIncluded at hci
    rw [hci]
  · rw [a1, c1, hci]
  · rw [a4, c4, any_eq_decide_countP, any_eq_decide_countP]
    unfold countRemoved at hcr
    rw [hcr]
  · rw [a2, c2, hcr]

theorem order_invariance_witness :
    hasKey (Buckets.contributors
        ⟨[("Alice:a@x.com", ⟨"Alice", "a@x.com", 1⟩),
          ("Bob:b@x.com", ⟨"Bob", "b@x.com", 1⟩)], []⟩) "Alice:a@x.com" =
      hasKey (Buckets.contributors
        ⟨[("Bob:b@x.com", ⟨"Bob", "b@x.com", 1⟩),
          ("Alice:a@x.com", ⟨"Alice", "a@x.com", 1⟩)], []⟩) "Alice:a@x.com"
  ∧ lookupCommits (Buckets.contributors
        ⟨[("Alice:a@x.com", ⟨"Alice", "a@x.com", 1⟩),
          ("Bob:b@x.com", ⟨"Bob", "b@x.com", 1⟩)], []⟩) "Alice:a@x.com" =
      lookupCommits (Buckets.contributors
        ⟨[("Bob:b@x.com", ⟨"Bob", "b@x.com", 1⟩),
          ("Alice:a@x.com", ⟨"Alice", "a@x.com", 1⟩)], []⟩) "Alice:a@x.com"
  ∧ hasKey (Buckets.removedContributors
        ⟨[("Alice:a@x.com", ⟨"Alice", "a@x.com", 1⟩),
          ("Bob:b@x.com", ⟨"Bob", "b@x.com", 1⟩)], []⟩) "Alice:a@x.com" =
      hasKey (Buckets.removedContributors
        ⟨[("Bob:b@x.com", ⟨"Bob", "b@x.com", 1⟩),
          ("Alice:a@x.com", ⟨"Alice", "a@x.com", 1⟩)], []⟩) "Alice:a@x.com"
  ∧ lookupCommits (Buckets.removedContributors
        ⟨[("Alice:a@x.com", ⟨"Alice", "a@x.com", 1⟩),
          ("Bob:b@x.com", ⟨"Bob", "b@x.com", 1⟩)], []⟩) "Alice:a@x.com" =
      lookupCommits (Buckets.removedContributors
        ⟨[("Bob:b@x.com", ⟨"Bob", "b@x.com", 1⟩),
          ("Alice:a@x.com", ⟨"Alice", "a@x.com", 1⟩)], []⟩) "Alice:a@x.com" :=
  order_invariance [] "azuredevops"
    [adoRecord (some "Alice") (some "a@x.com"), adoRecord (some "Bob") (some "b@x.com")]
    [adoRecord (some "Bob") (some "b@x.com"), adoRecord (some "Alice") (some "a@x.com")]
    ⟨[("Alice:a@x.com", ⟨"Alice", "a@x.com", 1⟩),
      ("Bob:b@x.com", ⟨"Bob", "b@x.com", 1⟩)], []⟩
    ⟨[("Bob:b@x.com", ⟨"Bob", "b@x.com", 1⟩),
      ("Alice:a@x.com", ⟨"Alice", "a@x.com", 1⟩)], []⟩
    "Alice:a@x.com"
    (List.Perm.swap (adoRecord (some "Bob") (some "b@x.com"))
      (adoRecord (some "Alice") (some "a@x.com")) [])
    rfl rfl

/-- C6: after every summary fold, `totalUniqueContributors` is the
arithmetic sum of the three platform counters (not a deduplicated union);
concretely, evaluating GitLab (5 included contributors) and then GitHub
(3 included contributors, all three identities also present on GitLab)
leaves `totalUniqueContributors = 8`. -/
theorem summary_total_is_sum :
    (∀ (s : SCMSummary) (sys : String) (contributorsLen reposLen : Nat),
      (updateSummary s sys contributorsLen reposLen).totalUniqueContributors =
        (updateSummary s sys contributorsLen reposLen).gitlabContributors +
        (updateSummary s sys contributorsLen reposLen).githubContributors +
        (updateSummary s sys contributorsLen reposLen).azureDevOpsContributors)
  ∧ (evaluateContributors [] startSummary [glFiveRecords] "gitlab").isOk = true
  ∧ summaryAfterGitlab.gitlabContributors = 5
  ∧ summaryAfterGitlab.totalUniqueContributors = 5
  ∧ (evaluateContributors [] summaryAfterGitlab [ghThreeRecords] "github").isOk = true
  ∧ summaryAfterBoth.githubContributors = 3
  ∧ summaryAfterBoth.totalUniqueContributors = 8 :=
  ⟨fun _ _ _ _ => rfl, rfl, rfl, rfl, rfl, rfl, rfl⟩

/-- C10: a completed evaluation pass for a recognized platform tag assigns
BOTH the selected-repositories counter and the total-repositories counter of
that platform the length of the repository list passed in, so the two
reported figures are always equal. -/
theorem selected_equals_total_repos (rp : RegexMap) (s : SCMSummary)
    (repoCommits : List (List CommitRecord)) (sys : String)
    (out : List Buckets × (List Contributor × List Contributor) × SCMSummary)
    (h : evaluateContributors rp s repoCommits sys = .ok out) :
    (strToLower sys = "gitlab" →
        out.2.2.selectedRepos.gitlab = repoCommits.length
      ∧ out.2.2.totalRepos.gitlab = repoCommits.length)
  ∧ (strToLower sys = "github" →
        out.2.2.selectedRepos.github = repoCommits.length
      ∧ out.2.2.totalRepos.github = repoCommits.length)
  ∧ (strToLower sys = "azuredevops" →
        out.2.2.selectedRepos.azureDevOps = repoCommits.length
      ∧ out.2.2.totalRepos.azureDevOps = repoCommits.length) := by
  unfold evaluateContributors at h
  cases her : evalRepos rp sys ([], [], []) repoCommits with
  | error e => rw [her] at h; simp at h
  | ok acc =>
    rw [her] at h
    obtain ⟨rbs, sysCs, sysRem⟩ := acc
    simp only [] at h
    injection h with h
    subst h
    refine ⟨fun hg => ?_, fun hg => ?_, fun hg => ?_⟩ <;>
      simp [updateSummary, hg]

theorem selected_equals_total_repos_witness :
    (updateSummary startSummary "gitlab" 0 1).selectedRepos.gitlab = 1
  ∧ (updateSummary startSummary "gitlab" 0 1).totalRepos.gitlab = 1 :=
  (selected_equals_total_repos [] startSummary [[]] "gitlab"
      ([⟨[], []⟩], ([], []), updateSummary startSummary "gitlab" 0 1) rfl).1 rfl

end DevCount
